import Mathlib

/-!
Verification development for the s3mothball repository.

The Python modules `s3mothball/s3mothball.py` and `s3mothball/helpers.py` are
shallowly embedded below.  Byte strings are `List Nat`, S3 object listings are
lists of fetched objects, the tar archive is a list of physical entries, and
the CSV manifest is a header plus a list of records.  The MD5 function and the
tar header length are parameters (`md5`, `hlen`): both the build and the
validation paths of the source delegate to the same library implementations
(`hashlib.md5`, `tarfile.TarInfo.tobuf`), so every theorem quantifies over
them and concrete witnesses instantiate them.
-/

namespace S3Mothball

/-- Byte strings (the contents of S3 objects and archive data regions). -/
abbrev Bytes := List Nat

/-- One object as delivered by `list_objects` + `load_object`: the store
metadata from `obj.get()` together with the streamed body.  `contentLength`
is the store-reported `ContentLength`; `body` holds the bytes the stream
actually yields, which may differ in length if the object changed between
the HEAD data and the read (the race `write_tar` is documented to defend
against). -/
structure FetchedObject where
  bucket : String
  key : String
  contentLength : Nat
  lastModified : String
  etag : String
  storageClass : Option String
  versionId : Option String
  body : Bytes
deriving DecidableEq

/-- One row of the manifest, mirroring the `OrderedDict` built in
`write_tar` (s3mothball.py lines 45-60).  CSV serialisation prints the
numeric fields in decimal and parses them back with `int(...)`, which is the
identity on naturals, so rows are kept typed. -/
structure ManifestRecord where
  Bucket : String
  Key : String
  Size : Nat
  LastModifiedDate : String
  ETag : String
  StorageClass : String
  VersionId : String
  TarMD5 : String
  TarOffset : Nat
  TarDataOffset : Nat
  TarSize : Nat
deriving DecidableEq

/-- The field names of the manifest rows, in the order `write_tar` builds its
`OrderedDict`; `write_dicts_to_csv` takes `list(rows[0].keys())` as the CSV
header, which is exactly this list. -/
def manifestFieldnames : List String :=
  ["Bucket", "Key", "Size", "LastModifiedDate", "ETag", "StorageClass",
   "VersionId", "TarMD5", "TarOffset", "TarDataOffset", "TarSize"]

/-- A written CSV manifest file: header row plus data rows. -/
structure CsvFile where
  header : List String
  rows : List ManifestRecord
deriving DecidableEq

/-- One physical entry of the tar archive: the name and size stored in its
header and the bytes of its data region.  (`mtime` is also stored in real
headers but is never read back by any operation of this repository, so it is
omitted.) -/
structure TarItem where
  name : String
  size : Nat
  content : Bytes
deriving DecidableEq

/-- A parsed tar entry as yielded by iterating `TarFile` in `'r|'` mode:
header fields plus the byte offsets of the header and of the data region,
exactly the fields `validate_tar` consumes. -/
structure TarEntry where
  name : String
  size : Nat
  content : Bytes
  offset : Nat
  offset_data : Nat
deriving DecidableEq

/-- Errors raised while building (`write_tar` and the helpers it calls).
`unexpectedEndOfData` is the exception `tarfile.copyfileobj` raises when the
source stream ends before `tarinfo.size` bytes were copied;
`sizeMismatch` is the `ValueError("Object size mismatch: ...")` at
s3mothball.py line 62; `indexError` is the `rows[0]` failure of
`write_dicts_to_csv` on an empty row list (helpers.py line 162). -/
inductive BuildError where
  | unexpectedEndOfData
  | sizeMismatch (key : String)
  | indexError
deriving DecidableEq

/-- Errors raised by `validate_tar`, one constructor per `raise` site, each
carrying the identifying data the message interpolates. -/
inductive ValidateError where
  | emptyManifest
  | notEnoughFiles (name : String)
  | mismatchedKeys (tarName manifestName : String)
  | offsetMismatch (name : String)
  | dataOffsetMismatch (name : String)
  | sizeMismatch (name : String)
  | contentMismatch (name : String)
  | hashMismatch (name : String)
  | manifestNotFound (keys : List String)
deriving DecidableEq

/-- Error raised by `open_archived_file` when no manifest row matches. -/
inductive ExtractError where
  | fileNotFound
deriving DecidableEq

instance {ε α : Type _} [DecidableEq ε] [DecidableEq α] : DecidableEq (Except ε α) := fun a b =>
  match a, b with
  | .error e, .error f => decidable_of_iff (e = f) (by simp)
  | .error _, .ok _ => isFalse (fun h => Except.noConfusion h)
  | .ok _, .error _ => isFalse (fun h => Except.noConfusion h)
  | .ok x, .ok y => decidable_of_iff (x = y) (by simp)

/-- Python `str.startswith`: the characters of `p` are a prefix of the
characters of `s`. -/
def pyStartsWith (s p : String) : Bool :=
  p.data.isPrefixOf s.data

/-- Python `s.strip('"')`: remove every leading and trailing `'"'`
character (used on the store-reported ETag). -/
def stripQuotes (s : String) : String :=
  String.mk (((s.data.dropWhile (· == '"')).reverse.dropWhile (· == '"')).reverse)

/-- The in-archive entry name computed by `write_tar` (s3mothball.py lines
40-42): the key, with `strip` removed from the front only when `strip` is
truthy and the key actually starts with it. -/
def stripName (strip key : String) : String :=
  if strip ≠ "" ∧ pyStartsWith key strip = true then key.drop strip.length else key

/-- Round a data-region length up to the tar block size of 512 bytes, as the
tar writer pads every data region. -/
def roundUp512 (n : Nat) : Nat := ((n + 511) / 512) * 512

/-- Parse a tar byte stream: assign to each physical entry its header offset
and data offset, the same bookkeeping both `LoggingTarFile.addfile`
(helpers.py lines 48-53) and the streamed reader perform.  `hlen` is the
serialized header length (`len(tarinfo.tobuf(...))`).  The data region the
reader exposes holds the first `size` bytes of the entry's content. -/
def tarEntries (hlen : String → Nat) : Nat → List TarItem → List TarEntry
  | _, [] => []
  | ofs, it :: rest =>
    let od := ofs + hlen it.name
    ⟨it.name, it.size, it.content.take it.size, ofs, od⟩ ::
      tarEntries hlen (od + roundUp512 it.size) rest

/-- The data region of one entry as physically laid out: the content
truncated to the header size, zero-padded to a whole number of 512-byte
blocks. -/
def padTo512 (content : Bytes) (size : Nat) : Bytes :=
  content.take size ++ List.replicate (roundUp512 size - (content.take size).length) 0

/-- The raw byte stream of the archive, as the validator's raw lane sees it.
Header bytes are modelled as zeros: `validate_tar` only ever skips over
header regions (it reads raw bytes exclusively inside data regions), so
their values are irrelevant to every operation of this repository. -/
def archiveBytes (hlen : String → Nat) : List TarItem → Bytes
  | [] => []
  | it :: rest =>
    List.replicate (hlen it.name) 0 ++ padTo512 it.content it.size ++ archiveBytes hlen rest

/-- Python's stable `sorted` / `list.sort`: insertion of one element into an
already sorted list, placing it before the first element it compares
less-or-equal to (stability: among ties the earlier element stays first). -/
def pyInsert (le : α → α → Bool) (x : α) : List α → List α
  | [] => [x]
  | y :: ys => if le x y then x :: y :: ys else y :: pyInsert le x ys

/-- Python's stable sort, as used for `files_written.sort(key=...)` and
`sorted(..., key=...)`. -/
def pySort (le : α → α → Bool) : List α → List α
  | [] => []
  | x :: xs => pyInsert le x (pySort le xs)

/-- Helper `write_dicts_to_csv` (helpers.py lines 160-164): the CSV header is
`list(rows[0].keys())`, so an empty row list raises `IndexError` before
anything is written. -/
def write_dicts_to_csv : List ManifestRecord → Except BuildError CsvFile
  | [] => .error .indexError
  | rows => .ok ⟨manifestFieldnames, rows⟩

/-- The per-object loop of `write_tar` (s3mothball.py lines 35-62), threading
the archive write offset.  For each fetched object it computes the entry
name, lets the tar writer copy exactly `ContentLength` bytes from the body
(raising if the body is shorter), records the manifest row with the member's
offsets, hash and size, and then performs the source's
`ContentLength != member.size` comparison — where `member.size` is the
`tarinfo.size` that was itself assigned from `ContentLength` at line 38.
The objects are given in fetch-completion order, which `threaded_queue`
leaves unspecified; theorems quantify over it. -/
def write_tar_loop (hlen : String → Nat) (md5 : Bytes → String) (strip : String) :
    Nat → List FetchedObject → Except BuildError (List ManifestRecord × List TarItem)
  | _, [] => .ok ([], [])
  | ofs, obj :: rest =>
    let name := stripName strip obj.key
    if obj.body.length < obj.contentLength then .error .unexpectedEndOfData
    else
      let member_size := obj.contentLength
      let record : ManifestRecord :=
        { Bucket := obj.bucket
          Key := obj.key
          Size := obj.contentLength
          LastModifiedDate := obj.lastModified
          ETag := stripQuotes obj.etag
          StorageClass := obj.storageClass.getD "STANDARD"
          VersionId := obj.versionId.getD ""
          TarMD5 := md5 (obj.body.take obj.contentLength)
          TarOffset := ofs
          TarDataOffset := ofs + hlen name
          TarSize := member_size }
      if obj.contentLength ≠ member_size then .error (.sizeMismatch obj.key)
      else
        match write_tar_loop hlen md5 strip (ofs + hlen name + roundUp512 obj.contentLength) rest with
        | .error e => .error e
        | .ok (recs, items) =>
          .ok (record :: recs, ⟨name, obj.contentLength, obj.body.take obj.contentLength⟩ :: items)

/-- Operation `write_tar` (s3mothball.py lines 17-67): tar every listed
object, then sort the records by `Key` and persist the manifest.  Returns
the written manifest file and the written archive. -/
def write_tar (hlen : String → Nat) (md5 : Bytes → String) (strip : String)
    (objects : List FetchedObject) : Except BuildError (CsvFile × List TarItem) :=
  match write_tar_loop hlen md5 strip 0 objects with
  | .error e => .error e
  | .ok (records, items) =>
    match write_dicts_to_csv (pySort (fun a b => decide (a.Key ≤ b.Key)) records) with
    | .error e => .error e
    | .ok csv => .ok (csv, items)

/-- The per-pair body of `validate_tar`'s loop (s3mothball.py lines 87-108)
checking one parsed tar entry `t` against one manifest record `e`: name with
the caller-supplied `strip` removed, header offset, data offset, size, then
the dual-lane content comparison (the parsed entry's data against the raw
archive bytes starting at the record's `TarDataOffset`, read in matched
chunks whose sizes total `tarinfo.size`), and finally the freshly computed
hash against the record's `TarMD5`. -/
def checkEntry (md5 : Bytes → String) (strip : String) (bytes : Bytes)
    (t : TarEntry) (e : ManifestRecord) : Except ValidateError Unit :=
  if t.name ≠ e.Key.drop strip.length then
    .error (.mismatchedKeys t.name (e.Key.drop strip.length))
  else if t.offset ≠ e.TarOffset then .error (.offsetMismatch t.name)
  else if t.offset_data ≠ e.TarDataOffset then .error (.dataOffsetMismatch t.name)
  else if t.size ≠ e.TarSize then .error (.sizeMismatch t.name)
  else if t.content ≠ (bytes.drop e.TarDataOffset).take t.size then
    .error (.contentMismatch t.name)
  else if md5 t.content ≠ e.TarMD5 then .error (.hashMismatch t.name)
  else .ok ()

/-- The iteration `for tarinfo in tar` of `validate_tar` (s3mothball.py lines
83-111): walk the parsed tar entries, popping one manifest record per entry;
raise `notEnoughFiles` if the records run out first, and after the entries
are exhausted raise `manifestNotFound` listing the keys of every record not
consumed. -/
def validate_loop (md5 : Bytes → String) (strip : String) (bytes : Bytes) :
    List TarEntry → List ManifestRecord → Except ValidateError Unit
  | [], [] => .ok ()
  | [], e :: es => .error (.manifestNotFound ((e :: es).map (·.Key)))
  | t :: _, [] => .error (.notEnoughFiles t.name)
  | t :: ts, e :: es =>
    match checkEntry md5 strip bytes t e with
    | .error err => .error err
    | .ok _ => validate_loop md5 strip bytes ts es

/-- Operation `validate_tar` (s3mothball.py lines 70-111): sort the manifest
rows by `TarOffset`, fail on an empty manifest, then run the dual-lane
cross-check of the archive against the records. -/
def validate_tar (hlen : String → Nat) (md5 : Bytes → String) (strip : String)
    (csv : CsvFile) (items : List TarItem) : Except ValidateError Unit :=
  match pySort (fun a b => decide (a.TarOffset ≤ b.TarOffset)) csv.rows with
  | [] => .error .emptyManifest
  | e :: es =>
    validate_loop md5 strip (archiveBytes hlen items) (tarEntries hlen 0 items) (e :: es)

/-- Helper `chunks` (helpers.py lines 194-205): split a list into consecutive
chunks of at most `n` elements.  `itertools.islice(it, 0)` is always empty,
so with `n = 0` the loop breaks immediately and yields nothing. -/
def chunks (n : Nat) : List α → List (List α)
  | [] => []
  | x :: xs =>
    if _h : n = 0 then [] else (x :: xs).take n :: chunks n ((x :: xs).drop n)
termination_by l => l.length
decreasing_by
  simp only [List.length_drop, List.length_cons]
  omega

/-- Per-bucket result dictionary of `delete_files`
(`{'keys': [], 'deleted': [], 'errors': [], 'mismatched': []}`). -/
structure DeleteResult where
  keys : List String
  deleted : List String
  errors : List String
  mismatched : List String
deriving DecidableEq

/-- First-seen-order deduplication with an accumulator of already-seen
elements. -/
def firstSeenAux (seen : List String) : List String → List String
  | [] => []
  | b :: rest =>
    if b ∈ seen then firstSeenAux seen rest else b :: firstSeenAux (b :: seen) rest

/-- First-seen-order deduplication, the key order of a Python `defaultdict`
filled by iteration (insertion order). -/
def firstSeen (l : List String) : List String := firstSeenAux [] l

/-- The bucket dictionary built by the first loop of `delete_files`
(s3mothball.py lines 133-138): for one bucket, the keys of its records whose
`ETag` equals `TarMD5` (in row order) and the keys of those whose `ETag`
differs (the mismatched ones, skipped by `continue`). -/
def bucketResult (rows : List ManifestRecord) (b : String) : DeleteResult :=
  { keys := (rows.filter (fun r => decide (r.Bucket = b) && decide (r.ETag = r.TarMD5))).map (·.Key)
    deleted := []
    errors := []
    mismatched := (rows.filter (fun r => decide (r.Bucket = b) && !decide (r.ETag = r.TarMD5))).map (·.Key) }

/-- The `buckets` defaultdict after the first loop of `delete_files`: one
entry per distinct `Bucket`, in first-appearance order, with `keys` and
`mismatched` filled and `deleted`/`errors` still empty. -/
def partitionManifest (rows : List ManifestRecord) : List (String × DeleteResult) :=
  (firstSeen (rows.map (·.Bucket))).map (fun b => (b, bucketResult rows b))

/-- Operation `delete_files` (s3mothball.py lines 114-150).  The store's
batched delete is the parameter `store`: applied to a bucket and a batch of
at most 1000 keys it returns the keys of `response['Deleted']` and of
`response['Errors']`.  The result pairs the per-bucket dictionaries with the
list of delete calls actually issued to the store (bucket and key batch per
call), which is empty in dry-run mode because the store is never
contacted. -/
def delete_files (store : String → List String → List String × List String)
    (rows : List ManifestRecord) (dry_run : Bool) :
    List (String × DeleteResult) × List (String × List String) :=
  let buckets := partitionManifest rows
  if dry_run then (buckets, [])
  else
    (buckets.map (fun p =>
        (p.1, { p.2 with
          deleted := ((chunks 1000 p.2.keys).map (fun batch => (store p.1 batch).1)).flatten
          errors := ((chunks 1000 p.2.keys).map (fun batch => (store p.1 batch).2)).flatten })),
     (buckets.map (fun p => (chunks 1000 p.2.keys).map (fun batch => (p.1, batch)))).flatten)

/-- Call of `delete_files` without an explicit mode: the Python signature is
`def delete_files(manifest_path, dry_run=True)`, so the omitted argument
defaults to a dry run. -/
def delete_files_default (store : String → List String → List String × List String)
    (rows : List ManifestRecord) : List (String × DeleteResult) × List (String × List String) :=
  delete_files store rows true

/-- The manifest scan of `open_archived_file` (s3mothball.py line 160):
`next((r for r in rows if r['Bucket'] == bucket and r['Key'] == key), None)`. -/
def findEntry (rows : List ManifestRecord) (bucket key : String) : Option ManifestRecord :=
  rows.find? (fun r => decide (r.Bucket = bucket) && decide (r.Key = key))

/-- Helper class `OffsetSizeFile` (helpers.py lines 103-127): a window of
`size` bytes of `source` starting at `offset`.  Construction seeks the
source to `offset`; `pos` is the read position within the window. -/
structure OffsetSizeFile where
  source : Bytes
  offset : Nat
  size : Nat
  pos : Nat
deriving DecidableEq

/-- `OffsetSizeFile.__init__`: remember offset and size, seek the source to
`offset`, start with `pos = 0`. -/
def OffsetSizeFile.init (source : Bytes) (offset size : Nat) : OffsetSizeFile :=
  ⟨source, offset, size, 0⟩

/-- `OffsetSizeFile.read` (helpers.py lines 120-127): a `read()` with no size
asks for the whole remaining window; a sized read is clamped with
`min(size, self.size - self.pos)`; the clamped count is then read from the
source (which is positioned at `offset + pos`) and `pos` advances by the
number of bytes actually obtained. -/
def OffsetSizeFile.read (f : OffsetSizeFile) (sz : Option Nat) : Bytes × OffsetSizeFile :=
  let n := match sz with
    | none => f.size - f.pos
    | some s => min s (f.size - f.pos)
  let out := (f.source.drop (f.offset + f.pos)).take n
  (out, { f with pos := f.pos + out.length })

/-- Operation `open_archived_file` (s3mothball.py lines 153-164): look the
requested bucket and key up in the manifest, raise `FileNotFoundError` when
absent, otherwise yield an `OffsetSizeFile` windowing the archive to the
record's `TarDataOffset`/`TarSize`. -/
def open_archived_file (rows : List ManifestRecord) (tarBytes : Bytes)
    (bucket key : String) : Except ExtractError OffsetSizeFile :=
  match findEntry rows bucket key with
  | none => .error .fileNotFound
  | some e => .ok (OffsetSizeFile.init tarBytes e.TarDataOffset e.TarSize)

/-- Agreement of one parsed tar entry with one manifest record: exactly the
facts `checkEntry` tests apart from the raw-lane content read. -/
def matchesRecord (md5 : Bytes → String) (strip : String)
    (t : TarEntry) (r : ManifestRecord) : Prop :=
  t.name = r.Key.drop strip.length ∧ t.offset = r.TarOffset ∧
  t.offset_data = r.TarDataOffset ∧ t.size = r.TarSize ∧ md5 t.content = r.TarMD5

/-! ## Concrete instances used by witnesses and counterexamples -/

/-- A concrete header-length function: every real ustar header of a short
name serializes to one 512-byte block. -/
def hlen0 : String → Nat := fun _ => 512

/-- A concrete stand-in for the MD5 hex digest function. -/
def md5c : Bytes → String := fun _ => "h"

/-- An object whose key `a/x` lies under the strip prefix `a/`. -/
def objAX : FetchedObject := ⟨"bkt", "a/x", 2, "t", "e", none, none, [7, 8]⟩

/-- The manifest row `write_tar hlen0 md5c "a/" [objAX]` produces. -/
def recAX : ManifestRecord := ⟨"bkt", "a/x", 2, "t", "e", "STANDARD", "", "h", 0, 512, 2⟩

/-- The manifest file `write_tar hlen0 md5c "a/" [objAX]` produces. -/
def csvAX : CsvFile := ⟨manifestFieldnames, [recAX]⟩

/-- The archive `write_tar hlen0 md5c "a/" [objAX]` produces. -/
def itemsAX : List TarItem := [⟨"x", 2, [7, 8]⟩]

/-- An object whose key `b` does not start with the strip prefix `a/`. -/
def objB : FetchedObject := ⟨"bkt", "b", 0, "t", "e", none, none, []⟩

/-- The manifest row `write_tar hlen0 md5c "a/" [objB]` produces. -/
def recB : ManifestRecord := ⟨"bkt", "b", 0, "t", "e", "STANDARD", "", "h", 0, 512, 0⟩

/-- The manifest file `write_tar hlen0 md5c "a/" [objB]` produces. -/
def csvB : CsvFile := ⟨manifestFieldnames, [recB]⟩

/-- The archive `write_tar hlen0 md5c "a/" [objB]` produces: the key does not
start with the prefix, so the entry keeps the full name `b`. -/
def itemsB : List TarItem := [⟨"b", 0, []⟩]

/-- An object caught by a concurrent modification: the store reported one
byte but the body stream yields three. -/
def objRace : FetchedObject := ⟨"b", "k", 1, "t", "e", none, none, [7, 8, 9]⟩

/-- A manifest row whose `ETag` equals its `TarMD5` (deletion-eligible). -/
def recDel : ManifestRecord := ⟨"bk", "k1", 1, "t", "e", "STANDARD", "", "e", 0, 512, 1⟩

/-- A manifest row whose `ETag` differs from its `TarMD5` (mismatched). -/
def recMis : ManifestRecord := ⟨"bk", "k2", 1, "t", "x", "STANDARD", "", "y", 600, 1112, 1⟩

/-- A store model that confirms deletion of every requested key. -/
def storeOk : String → List String → List String × List String := fun _ batch => (batch, [])

/-- An archive holding the entry of `itemsAX` plus one extra entry `y` that
`csvAX` does not list. -/
def itemsXY : List TarItem := [⟨"x", 2, [7, 8]⟩, ⟨"y", 0, []⟩]

/-! ## Helper lemmas about the stable sort -/

theorem hlen0_pos : ∀ n, 0 < hlen0 n := fun _ => by
  simp only [hlen0]
  omega

theorem pyInsert_perm (le : α → α → Bool) (x : α) (l : List α) :
    (pyInsert le x l).Perm (x :: l) := by
  induction l with
  | nil => simp [pyInsert]
  | cons y ys ih =>
    simp only [pyInsert]
    by_cases h : le x y
    · simp [h]
    · simp only [h, Bool.false_eq_true, if_false]
      exact (List.Perm.cons y ih).trans (List.Perm.swap x y ys)

theorem pySort_perm (le : α → α → Bool) (l : List α) : (pySort le l).Perm l := by
  induction l with
  | nil => simp [pySort]
  | cons x xs ih => exact (pyInsert_perm le x (pySort le xs)).trans (List.Perm.cons x ih)

theorem mem_pyInsert (le : α → α → Bool) (x a : α) (l : List α) :
    a ∈ pyInsert le x l ↔ a = x ∨ a ∈ l := by
  rw [(pyInsert_perm le x l).mem_iff, List.mem_cons]

theorem pairwise_pyInsert (le : α → α → Bool)
    (htot : ∀ a b, le a b = true ∨ le b a = true)
    (htr : ∀ a b c, le a b = true → le b c = true → le a c = true)
    (x : α) (l : List α) (hl : l.Pairwise fun a b => le a b = true) :
    (pyInsert le x l).Pairwise fun a b => le a b = true := by
  induction l with
  | nil => simp [pyInsert]
  | cons y ys ih =>
    cases hl with
    | cons hy hys =>
      simp only [pyInsert]
      by_cases h : le x y
      · rw [if_pos h]
        refine List.Pairwise.cons ?_ (List.Pairwise.cons hy hys)
        intro z hz
        rcases List.mem_cons.mp hz with rfl | hz
        · exact h
        · exact htr x y z h (hy z hz)
      · have hyx : le y x = true := (htot x y).resolve_left h
        simp only [h, Bool.false_eq_true, if_false]
        refine List.Pairwise.cons ?_ (ih hys)
        intro z hz
        rcases (mem_pyInsert le x z ys).mp hz with rfl | hz
        · exact hyx
        · exact hy z hz

theorem pairwise_pySort (le : α → α → Bool)
    (htot : ∀ a b, le a b = true ∨ le b a = true)
    (htr : ∀ a b c, le a b = true → le b c = true → le a c = true)
    (l : List α) : (pySort le l).Pairwise fun a b => le a b = true := by
  induction l with
  | nil => simp [pySort]
  | cons x xs ih => exact pairwise_pyInsert le htot htr x (pySort le xs) ih

theorem eq_of_perm_of_pairwise_lt (f : α → Nat) {l₁ l₂ : List α} (hp : l₁.Perm l₂)
    (h1 : l₁.Pairwise fun a b => f a < f b) (h2 : l₂.Pairwise fun a b => f a < f b) :
    l₁ = l₂ := by
  haveI : IsAntisymm α fun a b => f a < f b :=
    ⟨fun a b hab hba => absurd (Nat.lt_trans hab hba) (Nat.lt_irrefl _)⟩
  exact List.eq_of_perm_of_sorted hp h1 h2

/-- A permutation of a list with pairwise strictly increasing keys that is
itself sorted by non-strict keys equals that list. -/
theorem pySort_restores (f : α → Nat) (le : α → α → Bool)
    (hle : ∀ a b, le a b = true ↔ f a ≤ f b) {l₀ l : List α} (hp : l.Perm l₀)
    (h0 : l₀.Pairwise fun a b => f a < f b) :
    pySort le l = l₀ := by
  have htot : ∀ a b, le a b = true ∨ le b a = true := by
    intro a b
    rcases Nat.le_total (f a) (f b) with h | h
    · exact Or.inl ((hle a b).mpr h)
    · exact Or.inr ((hle b a).mpr h)
  have htr : ∀ a b c, le a b = true → le b c = true → le a c = true := by
    intro a b c hab hbc
    exact (hle a c).mpr (Nat.le_trans ((hle a b).mp hab) ((hle b c).mp hbc))
  have hperm : (pySort le l).Perm l₀ := (pySort_perm le l).trans hp
  have hpw_le : (pySort le l).Pairwise fun a b => f a ≤ f b :=
    (pairwise_pySort le htot htr l).imp fun h => (hle _ _).mp h
  have hnd : (l₀.map f).Nodup :=
    List.pairwise_map.mpr (h0.imp fun h => Nat.ne_of_lt h)
  have hndS : ((pySort le l).map f).Nodup := ((hperm.map f).nodup_iff).mpr hnd
  have hpw_ne : (pySort le l).Pairwise fun a b => f a ≠ f b := List.pairwise_map.mp hndS
  have hpw_lt : (pySort le l).Pairwise fun a b => f a < f b :=
    (hpw_le.and hpw_ne).imp fun h => Nat.lt_of_le_of_ne h.1 h.2
  exact eq_of_perm_of_pairwise_lt f hperm hpw_lt h0

/-! ## Helper lemmas about the archive layout -/

theorem roundUp512_ge (n : Nat) : n ≤ roundUp512 n := by
  unfold roundUp512
  omega

theorem length_padTo512 (c : Bytes) (s : Nat) : (padTo512 c s).length = roundUp512 s := by
  have h1 := roundUp512_ge s
  have h2 : (c.take s).length = min s c.length := List.length_take s c
  simp only [padTo512, List.length_append, List.length_replicate]
  omega

theorem stripName_eq_drop (strip key : String)
    (h : strip = "" ∨ pyStartsWith key strip = true) :
    stripName strip key = key.drop strip.length := by
  by_cases hs : strip = ""
  · subst hs
    simp only [stripName, ne_eq, not_true_eq_false, false_and, if_false]
    rw [String.drop_eq]
    rfl
  · have hp : pyStartsWith key strip = true := h.resolve_left hs
    simp [stripName, hs, hp]

/-- Every entry of a well-formed archive can be recovered from the raw byte
stream: the `TarSize` bytes at its data offset are its content.  This is the
agreement between the validator's parsed lane and raw lane. -/
theorem archive_slice (hlen : String → Nat) (items : List TarItem) :
    (∀ it ∈ items, it.content.length = it.size) →
    ∀ ofs, ∀ t ∈ tarEntries hlen ofs items,
      ofs ≤ t.offset_data ∧
      ((archiveBytes hlen items).drop (t.offset_data - ofs)).take t.size = t.content := by
  induction items with
  | nil =>
    intro _ ofs t ht
    simp [tarEntries] at ht
  | cons it rest ih =>
    intro hwf ofs t ht
    have hlen_it : it.content.length = it.size := hwf it (by simp)
    have htake : it.content.take it.size = it.content := by
      rw [← hlen_it]
      exact List.take_length it.content
    simp only [tarEntries, List.mem_cons] at ht
    rcases ht with rfl | ht
    · refine ⟨Nat.le_add_right ofs (hlen it.name), ?_⟩
      simp only [archiveBytes, Nat.add_sub_cancel_left]
      rw [List.append_assoc, List.drop_left' (by simp : (List.replicate (hlen it.name) (0 : Nat)).length = hlen it.name)]
      simp only [padTo512, htake, List.append_assoc]
      exact List.take_left' hlen_it
    · obtain ⟨h1, h2⟩ :=
        ih (fun x hx => hwf x (List.mem_cons_of_mem it hx))
          (ofs + hlen it.name + roundUp512 it.size) t ht
      constructor
      · omega
      · have hseg : (List.replicate (hlen it.name) (0 : Nat) ++ padTo512 it.content it.size).length
            = hlen it.name + roundUp512 it.size := by
          simp [length_padTo512]
        have harith : t.offset_data - ofs
            = (hlen it.name + roundUp512 it.size)
              + (t.offset_data - (ofs + hlen it.name + roundUp512 it.size)) := by
          omega
        simp only [archiveBytes, List.append_assoc] at *
        rw [← List.append_assoc, harith, ← List.drop_drop,
          List.drop_left' hseg]
        exact h2

/-! ## Specification of the build loop -/

theorem write_tar_loop_spec (hlen : String → Nat) (md5 : Bytes → String) (strip : String)
    (objects : List FetchedObject)
    (hpre : ∀ o ∈ objects, strip = "" ∨ pyStartsWith o.key strip = true) :
    ∀ ofs recs items, write_tar_loop hlen md5 strip ofs objects = .ok (recs, items) →
      List.Forall₂ (matchesRecord md5 strip) (tarEntries hlen ofs items) recs ∧
      (∀ it ∈ items, it.content.length = it.size) ∧
      (∀ r ∈ recs, ofs ≤ r.TarOffset) ∧
      ((∀ n, 0 < hlen n) → recs.Pairwise fun a b => a.TarOffset < b.TarOffset) := by
  induction objects with
  | nil =>
    intro ofs recs items h
    simp only [write_tar_loop] at h
    obtain ⟨rfl, rfl⟩ : recs = [] ∧ items = [] := by
      cases h
      exact ⟨rfl, rfl⟩
    exact ⟨List.Forall₂.nil, by simp, by simp, fun _ => List.Pairwise.nil⟩
  | cons obj rest ih =>
    intro ofs recs items h
    simp only [write_tar_loop] at h
    by_cases hb : obj.body.length < obj.contentLength
    · rw [if_pos hb] at h
      cases h
    · rw [if_neg hb, if_neg (fun hc => hc rfl)] at h
      cases hrest : write_tar_loop hlen md5 strip
          (ofs + hlen (stripName strip obj.key) + roundUp512 obj.contentLength) rest with
      | error e => rw [hrest] at h; cases h
      | ok p =>
        obtain ⟨recs', items'⟩ := p
        rw [hrest] at h
        cases h
        obtain ⟨ihf, ihwf, ihofs, ihpw⟩ :=
          ih (fun o ho => hpre o (List.mem_cons_of_mem obj ho)) _ recs' items' hrest
        have hname : stripName strip obj.key = obj.key.drop strip.length :=
          stripName_eq_drop strip obj.key (hpre obj (List.mem_cons_self obj rest))
        have htt : (obj.body.take obj.contentLength).take obj.contentLength
            = obj.body.take obj.contentLength := by
          rw [List.take_take, Nat.min_self]
        refine ⟨?_, ?_, ?_, ?_⟩
        · simp only [tarEntries]
          refine List.Forall₂.cons ?_ ihf
          exact ⟨by simpa using hname, rfl, rfl, rfl, by simp [htt]⟩
        · intro it hit
          rcases List.mem_cons.mp hit with rfl | hit
          · simp only [List.length_take]
            omega
          · exact ihwf it hit
        · intro r hr
          rcases List.mem_cons.mp hr with rfl | hr
          · exact Nat.le_refl ofs
          · exact Nat.le_trans (by omega) (ihofs r hr)
        · intro hhl
          refine List.Pairwise.cons ?_ (ihpw hhl)
          intro r hr
          have h1 := ihofs r hr
          have h2 := hhl (stripName strip obj.key)
          simp only
          omega


/-! ## Helper lemmas about the validation loop -/

theorem checkEntry_ok_of_matches (md5 : Bytes → String) (strip : String) (bytes : Bytes)
    (t : TarEntry) (r : ManifestRecord) (hm : matchesRecord md5 strip t r)
    (hslice : (bytes.drop t.offset_data).take t.size = t.content) :
    checkEntry md5 strip bytes t r = .ok () := by
  obtain ⟨h1, h2, h3, h4, h5⟩ := hm
  have c5 : (bytes.drop r.TarDataOffset).take t.size = t.content := by
    rw [← h3]
    exact hslice
  simp only [checkEntry]
  rw [if_neg (fun hc => hc h1), if_neg (fun hc => hc h2), if_neg (fun hc => hc h3),
    if_neg (fun hc => hc h4), if_neg (fun hc => hc c5.symm), if_neg (fun hc => hc h5)]

theorem validate_loop_of_forall2 (md5 : Bytes → String) (strip : String) (bytes : Bytes)
    {ts : List TarEntry} {es : List ManifestRecord}
    (h : List.Forall₂ (fun t e => checkEntry md5 strip bytes t e = .ok ()) ts es) :
    validate_loop md5 strip bytes ts es = .ok () := by
  induction h with
  | nil => rfl
  | cons hte _ ih =>
    simp only [validate_loop]
    rw [hte]
    exact ih

theorem validate_loop_ok_length (md5 : Bytes → String) (strip : String) (bytes : Bytes) :
    ∀ (ts : List TarEntry) (es : List ManifestRecord),
      validate_loop md5 strip bytes ts es = .ok () → ts.length = es.length := by
  intro ts
  induction ts with
  | nil =>
    intro es h
    cases es with
    | nil => rfl
    | cons e es' => simp [validate_loop] at h
  | cons t ts' ih =>
    intro es h
    cases es with
    | nil => simp [validate_loop] at h
    | cons e es' =>
      simp only [validate_loop] at h
      cases hc : checkEntry md5 strip bytes t e with
      | error err => rw [hc] at h; cases h
      | ok u =>
        rw [hc] at h
        simpa using ih es' h

theorem validate_loop_tar_longer (md5 : Bytes → String) (strip : String) (bytes : Bytes) :
    ∀ (ts : List TarEntry) (es : List ManifestRecord)
      (_ : ∀ i (h1 : i < ts.length) (h2 : i < es.length),
        checkEntry md5 strip bytes (ts.get ⟨i, h1⟩) (es.get ⟨i, h2⟩) = .ok ())
      (hlt : es.length < ts.length),
      validate_loop md5 strip bytes ts es =
        .error (.notEnoughFiles (ts.get ⟨es.length, hlt⟩).name) := by
  intro ts
  induction ts with
  | nil => intro es hch hlt; simp at hlt
  | cons t ts' ih =>
    intro es hch hlt
    cases es with
    | nil => rfl
    | cons e es' =>
      simp only [validate_loop]
      have h0 : checkEntry md5 strip bytes t e = .ok () := hch 0 (by simp) (by simp)
      rw [h0]
      have hlt' : es'.length < ts'.length := by simpa using hlt
      exact ih es' (fun i h1 h2 => hch (i + 1) (by simpa using h1) (by simpa using h2)) hlt'

theorem validate_loop_csv_longer (md5 : Bytes → String) (strip : String) (bytes : Bytes) :
    ∀ (ts : List TarEntry) (es : List ManifestRecord)
      (_ : ∀ i (h1 : i < ts.length) (h2 : i < es.length),
        checkEntry md5 strip bytes (ts.get ⟨i, h1⟩) (es.get ⟨i, h2⟩) = .ok ())
      (_ : ts.length < es.length),
      validate_loop md5 strip bytes ts es =
        .error (.manifestNotFound ((es.drop ts.length).map (·.Key))) := by
  intro ts
  induction ts with
  | nil =>
    intro es hch hlt
    cases es with
    | nil => simp at hlt
    | cons e es' => rfl
  | cons t ts' ih =>
    intro es hch hlt
    cases es with
    | nil => simp at hlt
    | cons e es' =>
      simp only [validate_loop]
      have h0 : checkEntry md5 strip bytes t e = .ok () := hch 0 (by simp) (by simp)
      rw [h0]
      have hlt' : ts'.length < es'.length := by simpa using hlt
      have := ih es' (fun i h1 h2 => hch (i + 1) (by simpa using h1) (by simpa using h2)) hlt'
      rw [this]
      rfl

theorem validate_loop_of_get (md5 : Bytes → String) (strip : String) (bytes : Bytes)
    (ts : List TarEntry) (es : List ManifestRecord)
    (hch : ∀ i (h1 : i < ts.length) (h2 : i < es.length),
      checkEntry md5 strip bytes (ts.get ⟨i, h1⟩) (es.get ⟨i, h2⟩) = .ok ())
    (hlen : ts.length = es.length) :
    validate_loop md5 strip bytes ts es = .ok () := by
  refine validate_loop_of_forall2 md5 strip bytes (List.forall₂_iff_get.mpr ⟨hlen, ?_⟩)
  exact fun i h1 h2 => hch i h1 h2

/-- When the manifest has at least one row, `validate_tar` runs the loop on
the rows sorted by `TarOffset`. -/
theorem validate_tar_eq_loop (hlen : String → Nat) (md5 : Bytes → String) (strip : String)
    (csv : CsvFile) (items : List TarItem) (hne : csv.rows ≠ []) :
    validate_tar hlen md5 strip csv items =
      validate_loop md5 strip (archiveBytes hlen items) (tarEntries hlen 0 items)
        (pySort (fun a b => decide (a.TarOffset ≤ b.TarOffset)) csv.rows) := by
  cases hs : pySort (fun a b => decide (a.TarOffset ≤ b.TarOffset)) csv.rows with
  | nil =>
    exfalso
    have := (pySort_perm (fun a b => decide (a.TarOffset ≤ b.TarOffset)) csv.rows).length_eq
    rw [hs] at this
    exact hne (List.eq_nil_of_length_eq_zero this.symm)
  | cons e es =>
    simp only [validate_tar, hs]

theorem forall2_check (md5 : Bytes → String) (strip : String) (bytes : Bytes) :
    ∀ {ts : List TarEntry} {recs : List ManifestRecord},
      List.Forall₂ (matchesRecord md5 strip) ts recs →
      (∀ t ∈ ts, (bytes.drop t.offset_data).take t.size = t.content) →
      List.Forall₂ (fun t e => checkEntry md5 strip bytes t e = .ok ()) ts recs := by
  intro ts recs h
  induction h with
  | nil => exact fun _ => .nil
  | cons hm _ ih =>
    intro hsl
    refine .cons (checkEntry_ok_of_matches md5 strip bytes _ _ hm (hsl _ (by simp))) ?_
    exact ih fun t ht => hsl t (List.mem_cons_of_mem _ ht)

/-! ## Claim C1 (round-trip) -/

/-- C1 (amended): building an archive with `write_tar` and immediately
running `validate_tar` on the produced manifest and tar with the same strip
prefix succeeds, provided every archived key starts with the strip prefix
(or the prefix is empty).  The header length is positive (512 bytes at
least for every real tar header) and the same `hlen`/`md5` back both runs,
as both delegate to the same libraries. -/
theorem write_validate_roundtrip_of_keys_under_strip
    (hlen : String → Nat) (md5 : Bytes → String) (strip : String)
    (objects : List FetchedObject) (csv : CsvFile) (items : List TarItem)
    (hhl : ∀ n, 0 < hlen n)
    (hpre : ∀ o ∈ objects, strip = "" ∨ pyStartsWith o.key strip = true)
    (hok : write_tar hlen md5 strip objects = .ok (csv, items)) :
    validate_tar hlen md5 strip csv items = .ok () := by
  simp only [write_tar] at hok
  cases hloop : write_tar_loop hlen md5 strip 0 objects with
  | error e => rw [hloop] at hok; cases hok
  | ok p =>
    obtain ⟨records, items'⟩ := p
    rw [hloop] at hok
    dsimp only at hok
    cases hs : pySort (fun a b => decide (a.Key ≤ b.Key)) records with
    | nil =>
      rw [hs] at hok
      cases hok
    | cons r rs =>
      rw [hs] at hok
      simp only [write_dicts_to_csv] at hok
      cases hok
      obtain ⟨hf, hwf, _, hpw⟩ :=
        write_tar_loop_spec hlen md5 strip objects hpre 0 records items hloop
      have hperm : (r :: rs).Perm records := hs ▸ pySort_perm _ records
      have hsorted :
          pySort (fun a b => decide (a.TarOffset ≤ b.TarOffset)) (r :: rs) = records :=
        pySort_restores (fun x => x.TarOffset) _ (fun a b => by simp) hperm (hpw hhl)
      rw [validate_tar_eq_loop hlen md5 strip ⟨manifestFieldnames, r :: rs⟩ items (by simp)]
      simp only [hsorted]
      refine validate_loop_of_forall2 md5 strip _ (forall2_check md5 strip _ hf ?_)
      intro t ht
      have := (archive_slice hlen items hwf 0 t ht).2
      simpa using this

/-- Witness for C1 (amended): a concrete one-object build under prefix `a/`
validates successfully with the same prefix. -/
theorem write_validate_roundtrip_of_keys_under_strip_witness :
    write_tar hlen0 md5c "a/" [objAX] = .ok (csvAX, itemsAX) ∧
    validate_tar hlen0 md5c "a/" csvAX itemsAX = .ok () := by
  refine ⟨by decide, ?_⟩
  refine write_validate_roundtrip_of_keys_under_strip hlen0 md5c "a/" [objAX] csvAX itemsAX
    hlen0_pos ?_ (by decide)
  intro o ho
  rw [List.mem_singleton] at ho
  subst ho
  exact Or.inr (by decide)

/-- Counterexample to C1 as stated: archiving a single object whose key `b`
does not start with the strip prefix `a/` succeeds, but an immediate
`validate_tar` with the same strip prefix raises a mismatched-keys error:
the build strips the prefix only from keys that start with it, while
validation unconditionally drops `len(strip_prefix)` characters. -/
theorem write_validate_roundtrip_fails_on_unprefixed_key :
    write_tar hlen0 md5c "a/" [objB] = .ok (csvB, itemsB) ∧
    validate_tar hlen0 md5c "a/" csvB itemsB = .error (.mismatchedKeys "b" "") := by
  exact ⟨by decide, by decide⟩

/-! ## Claim C2 (stored strip prefix) -/

/-- C2 fails on the code: the manifest rows written by `write_tar` have no
`TarStrippedPrefix` column (the header, `list(rows[0].keys())`, is exactly
`manifestFieldnames`), and validation cannot operate without the caller
re-supplying the strip prefix: validating an archive built with prefix `a/`
while omitting the prefix argument fails with mismatched keys, although the
same validation succeeds when the caller re-supplies `a/` (see the C1
witness).  The repository's own test expects the column
(`tests/test_s3mothball.py` line 54) and calls `validate_tar` without the
prefix (line 72). -/
theorem manifest_lacks_stored_strip_column :
    (manifestFieldnames.contains "TarStrippedPrefix") = false ∧
    write_tar hlen0 md5c "a/" [objAX] = .ok (csvAX, itemsAX) ∧
    validate_tar hlen0 md5c "" csvAX itemsAX = .error (.mismatchedKeys "x" "a/x") := by
  exact ⟨by decide, by decide, by decide⟩

/-! ## Claim C3 (zero objects) -/

/-- C3 fails on the code: with zero objects under the prefix, `write_tar`
does not complete; `write_dicts_to_csv` evaluates `rows[0]` on the empty
row list and raises `IndexError`, so no manifest is written. -/
theorem write_tar_empty_listing_raises (hlen : String → Nat) (md5 : Bytes → String)
    (strip : String) :
    write_tar hlen md5 strip [] = .error .indexError := rfl

/-! ## Claim C6 (name invariant) -/

/-- C6 (amended): for every row of a manifest produced by `write_tar`, the
archive contains an entry at the row's `TarOffset` whose name is the row's
`Key` with the strip prefix dropped — provided every archived key starts
with the strip prefix (or the prefix is empty).  Keys that do not start
with the prefix keep their full name (see the counterexample). -/
theorem entry_name_eq_key_drop_of_starts
    (hlen : String → Nat) (md5 : Bytes → String) (strip : String)
    (objects : List FetchedObject) (csv : CsvFile) (items : List TarItem)
    (hpre : ∀ o ∈ objects, strip = "" ∨ pyStartsWith o.key strip = true)
    (hok : write_tar hlen md5 strip objects = .ok (csv, items)) :
    ∀ r ∈ csv.rows, ∃ t ∈ tarEntries hlen 0 items,
      t.offset = r.TarOffset ∧ t.name = r.Key.drop strip.length := by
  simp only [write_tar] at hok
  cases hloop : write_tar_loop hlen md5 strip 0 objects with
  | error e => rw [hloop] at hok; cases hok
  | ok p =>
    obtain ⟨records, items'⟩ := p
    rw [hloop] at hok
    dsimp only at hok
    cases hs : pySort (fun a b => decide (a.Key ≤ b.Key)) records with
    | nil =>
      rw [hs] at hok
      cases hok
    | cons r0 rs =>
      rw [hs] at hok
      simp only [write_dicts_to_csv] at hok
      cases hok
      obtain ⟨hf, _, _, _⟩ :=
        write_tar_loop_spec hlen md5 strip objects hpre 0 records items hloop
      intro r hr
      have hrmem : r ∈ records := (hs ▸ pySort_perm _ records).mem_iff.mp hr
      obtain ⟨i, hir⟩ := List.mem_iff_get.mp hrmem
      obtain ⟨hlen_eq, hget⟩ := List.forall₂_iff_get.mp hf
      refine ⟨(tarEntries hlen 0 items).get ⟨i.1, by omega⟩, List.get_mem _ _ _, ?_⟩
      obtain ⟨h1, h2, _, _, _⟩ := hget i.1 (by omega) i.2
      rw [show records.get ⟨i.1, i.2⟩ = r from hir] at h1 h2
      exact ⟨h2.symm ▸ rfl, h1⟩

/-- Witness for C6 (amended), at the concrete one-object build under prefix
`a/`. -/
theorem entry_name_eq_key_drop_of_starts_witness :
    ∃ t ∈ tarEntries hlen0 0 itemsAX,
      t.offset = recAX.TarOffset ∧ t.name = recAX.Key.drop ("a/".length) := by
  refine entry_name_eq_key_drop_of_starts hlen0 md5c "a/" [objAX] csvAX itemsAX
    ?_ (by decide) recAX (by simp [csvAX])
  intro o ho
  rw [List.mem_singleton] at ho
  subst ho
  exact Or.inr (by decide)

/-- Counterexample to C6 as stated: the build of an object with key `b`
under strip prefix `a/` names its entry `b`, but `Key` minus the prefix
length is the empty string, so the universal name invariant does not hold
for keys that do not start with the prefix. -/
theorem entry_name_not_key_drop_on_unprefixed_key :
    write_tar hlen0 md5c "a/" [objB] = .ok (csvB, [⟨"b", 0, []⟩]) ∧
    stripName "a/" "b" = "b" ∧ recB.Key.drop ("a/".length) = "" ∧
    (("b" : String) == "") = false := by
  exact ⟨by decide, by decide, by decide, by decide⟩

/-! ## Claim C7 (size-mismatch check) -/

/-- C7 fails on the code: the guard `response['ContentLength'] != member.size`
compares the store-reported length with a `tarinfo.size` that was itself
assigned from `response['ContentLength']`, so it can never fire.  First
conjunct: no run of the build loop ever returns the size-mismatch error.
Second conjunct: at a concrete racing object whose store-reported length is
1 while its body yields 3 bytes, `write_tar` succeeds silently, archiving
the first byte only, instead of aborting with an error identifying the
key. -/
theorem write_tar_size_check_dead :
    (∀ (hlen : String → Nat) (md5 : Bytes → String) (strip : String)
      (objects : List FetchedObject) (ofs : Nat) (k : String),
        write_tar_loop hlen md5 strip ofs objects ≠ .error (.sizeMismatch k)) ∧
    write_tar hlen0 md5c "" [objRace] =
      .ok (⟨manifestFieldnames, [⟨"b", "k", 1, "t", "e", "STANDARD", "", "h", 0, 512, 1⟩]⟩,
        [⟨"k", 1, [7]⟩]) := by
  constructor
  · intro hlen md5 strip objects
    induction objects with
    | nil => intro ofs k h; cases h
    | cons obj rest ih =>
      intro ofs k h
      simp only [write_tar_loop] at h
      by_cases hb : obj.body.length < obj.contentLength
      · rw [if_pos hb] at h
        cases h
      · rw [if_neg hb, if_neg (fun hc => hc rfl)] at h
        cases hrest : write_tar_loop hlen md5 strip
            (ofs + hlen (stripName strip obj.key) + roundUp512 obj.contentLength) rest with
        | error e =>
          rw [hrest] at h
          cases h
          exact ih _ k hrest
        | ok p =>
          obtain ⟨recs', items'⟩ := p
          rw [hrest] at h
          cases h
  · decide

/-- Witness for C7's universally quantified conjunct at a concrete input. -/
theorem write_tar_size_check_dead_witness :
    write_tar_loop hlen0 md5c "" 0 [objRace] ≠ .error (.sizeMismatch "k") :=
  write_tar_size_check_dead.1 hlen0 md5c "" [objRace] 0 "k"

/-! ## Claim C4 (cardinality of manifest vs archive) -/

/-- C4: `validate_tar` detects every cardinality disagreement.  First
conjunct: a successful validation forces archive entries and manifest rows
to correspond one to one.  Under the assumption that every aligned pair of
the common prefix passes the per-entry checks and that the manifest is not
empty: an archive longer than the manifest fails with `notEnoughFiles`
naming the first entry without a record; a manifest longer than the archive
fails with `manifestNotFound` listing the keys of every unconsumed record;
and validation succeeds exactly when the counts agree. -/
theorem validate_tar_cardinality (hlen : String → Nat) (md5 : Bytes → String)
    (strip : String) (csv : CsvFile) (items : List TarItem) :
    (validate_tar hlen md5 strip csv items = .ok () →
      (tarEntries hlen 0 items).length = csv.rows.length) ∧
    ∀ (_ : ∀ i (h1 : i < (tarEntries hlen 0 items).length)
        (h2 : i < (pySort (fun a b => decide (a.TarOffset ≤ b.TarOffset)) csv.rows).length),
        checkEntry md5 strip (archiveBytes hlen items)
          ((tarEntries hlen 0 items).get ⟨i, h1⟩)
          ((pySort (fun a b => decide (a.TarOffset ≤ b.TarOffset)) csv.rows).get ⟨i, h2⟩)
          = .ok ())
      (_ : csv.rows ≠ []),
      ((h : csv.rows.length < (tarEntries hlen 0 items).length) →
        validate_tar hlen md5 strip csv items =
          .error (.notEnoughFiles ((tarEntries hlen 0 items).get ⟨csv.rows.length, h⟩).name)) ∧
      ((tarEntries hlen 0 items).length < csv.rows.length →
        validate_tar hlen md5 strip csv items =
          .error (.manifestNotFound
            (((pySort (fun a b => decide (a.TarOffset ≤ b.TarOffset)) csv.rows).drop
              (tarEntries hlen 0 items).length).map (·.Key)))) ∧
      (validate_tar hlen md5 strip csv items = .ok () ↔
        (tarEntries hlen 0 items).length = csv.rows.length) := by
  have lenS : (pySort (fun a b => decide (a.TarOffset ≤ b.TarOffset)) csv.rows).length
      = csv.rows.length := (pySort_perm _ csv.rows).length_eq
  have hok_len : validate_tar hlen md5 strip csv items = .ok () →
      (tarEntries hlen 0 items).length = csv.rows.length := by
    intro hok
    by_cases hrows : csv.rows = []
    · exfalso
      rw [show validate_tar hlen md5 strip csv items = .error .emptyManifest by
        simp [validate_tar, hrows, pySort]] at hok
      cases hok
    · rw [validate_tar_eq_loop hlen md5 strip csv items hrows] at hok
      rw [← lenS]
      exact validate_loop_ok_length md5 strip _ _ _ hok
  refine ⟨hok_len, ?_⟩
  intro hch hne
  refine ⟨?_, ?_, ?_⟩
  · intro h
    rw [validate_tar_eq_loop hlen md5 strip csv items hne]
    have hlt' : (pySort (fun a b => decide (a.TarOffset ≤ b.TarOffset)) csv.rows).length
        < (tarEntries hlen 0 items).length := by omega
    rw [validate_loop_tar_longer md5 strip _ _ _ hch hlt']
    have hfin : (⟨(pySort (fun a b => decide (a.TarOffset ≤ b.TarOffset)) csv.rows).length,
        hlt'⟩ : Fin (tarEntries hlen 0 items).length) = ⟨csv.rows.length, h⟩ :=
      Fin.ext lenS
    rw [hfin]
  · intro h
    rw [validate_tar_eq_loop hlen md5 strip csv items hne]
    exact validate_loop_csv_longer md5 strip _ _ _ hch (by omega)
  · constructor
    · intro hok
      exact hok_len hok
    · intro hlen_eq
      rw [validate_tar_eq_loop hlen md5 strip csv items hne]
      exact validate_loop_of_get md5 strip _ _ _ hch (by omega)

set_option maxRecDepth 8192 in
/-- Witness for C4: validating a one-row manifest against a two-entry
archive fails with `notEnoughFiles` naming the second entry. -/
theorem validate_tar_cardinality_witness :
    validate_tar hlen0 md5c "a/" csvAX itemsXY = .error (.notEnoughFiles "y") := by
  have h := ((validate_tar_cardinality hlen0 md5c "a/" csvAX itemsXY).2 ?_ (by decide)).1
    (by decide)
  · exact h
  · intro i h1 h2
    rw [show (pySort (fun a b => decide (a.TarOffset ≤ b.TarOffset)) csvAX.rows).length = 1
      from rfl] at h2
    obtain rfl : i = 0 := Nat.lt_one_iff.mp h2
    rw [show (tarEntries hlen0 0 itemsXY).get ⟨0, h1⟩ = ⟨"x", 2, [7, 8], 0, 512⟩ from rfl,
      show (pySort (fun a b => decide (a.TarOffset ≤ b.TarOffset)) csvAX.rows).get ⟨0, h2⟩
        = recAX from rfl]
    decide

/-! ## Helper lemmas about chunking and bucket partitioning -/

theorem chunks_spec_aux (n : Nat) (hn : 0 < n) :
    ∀ (k : Nat) (l : List α), l.length ≤ k →
      (chunks n l).flatten = l ∧ (∀ c ∈ chunks n l, c.length ≤ n) ∧
      (n < l.length → 2 ≤ (chunks n l).length) := by
  intro k
  induction k with
  | zero =>
    intro l hl
    obtain rfl : l = [] := List.eq_nil_of_length_eq_zero (by omega)
    simp [chunks]
  | succ k ih =>
    intro l hl
    cases l with
    | nil => simp [chunks]
    | cons x xs =>
      have hn' : ¬ n = 0 := by omega
      simp only [chunks, hn', dite_false]
      have hdl : ((x :: xs).drop n).length ≤ k := by
        simp only [List.length_drop, List.length_cons]
        simp only [List.length_cons] at hl
        omega
      obtain ⟨ih1, ih2, ih3⟩ := ih ((x :: xs).drop n) hdl
      refine ⟨?_, ?_, ?_⟩
      · rw [List.flatten_cons, ih1, List.take_append_drop]
      · intro c hc
        rcases List.mem_cons.mp hc with rfl | hc
        · have := List.length_take n (x :: xs)
          omega
        · exact ih2 c hc
      · intro hlong
        cases hdrop : (x :: xs).drop n with
        | nil =>
          exfalso
          have := congrArg List.length hdrop
          simp only [List.length_drop, List.length_cons, List.length_nil] at this
          simp only [List.length_cons] at hlong
          omega
        | cons y ys =>
          simp only [chunks, hn', dite_false, List.length_cons]
          omega

theorem chunks_spec (n : Nat) (hn : 0 < n) (l : List α) :
    (chunks n l).flatten = l ∧ (∀ c ∈ chunks n l, c.length ≤ n) ∧
    (n < l.length → 2 ≤ (chunks n l).length) :=
  chunks_spec_aux n hn l.length l (Nat.le_refl _)

theorem mem_firstSeenAux (x : String) :
    ∀ (l seen : List String), x ∈ firstSeenAux seen l ↔ x ∈ l ∧ x ∉ seen := by
  intro l
  induction l with
  | nil => intro seen; simp [firstSeenAux]
  | cons b rest ih =>
    intro seen
    simp only [firstSeenAux]
    by_cases hb : b ∈ seen
    · rw [if_pos hb, ih seen]
      constructor
      · rintro ⟨hx, hns⟩
        exact ⟨List.mem_cons_of_mem b hx, hns⟩
      · rintro ⟨hx, hns⟩
        rcases List.mem_cons.mp hx with rfl | hx
        · exact absurd hb hns
        · exact ⟨hx, hns⟩
    · rw [if_neg hb]
      simp only [List.mem_cons, ih (b :: seen), List.mem_cons]
      constructor
      · rintro (rfl | ⟨hx, hns⟩)
        · exact ⟨Or.inl rfl, hb⟩
        · exact ⟨Or.inr hx, fun hs => hns (Or.inr hs)⟩
      · rintro ⟨rfl | hx, hns⟩
        · exact Or.inl rfl
        · by_cases hxb : x = b
          · exact Or.inl hxb
          · exact Or.inr ⟨hx, fun hs => hs.elim hxb hns⟩

theorem mem_firstSeen (l : List String) (x : String) : x ∈ firstSeen l ↔ x ∈ l := by
  rw [firstSeen, mem_firstSeenAux]
  simp

/-- Every manifest record has a bucket entry in the partition. -/
theorem partitionManifest_mem (rows : List ManifestRecord) (r : ManifestRecord)
    (hr : r ∈ rows) :
    (r.Bucket, bucketResult rows r.Bucket) ∈ partitionManifest rows := by
  have hb : r.Bucket ∈ rows.map (·.Bucket) := List.mem_map_of_mem _ hr
  have hf : r.Bucket ∈ firstSeen (rows.map (·.Bucket)) := (mem_firstSeen _ _).mpr hb
  exact List.mem_map_of_mem (fun b => (b, bucketResult rows b)) hf

/-- A mismatched record's key lands in its bucket's `mismatched` list. -/
theorem bucketResult_mismatched_mem (rows : List ManifestRecord) (r : ManifestRecord)
    (hr : r ∈ rows) (hmis : r.ETag ≠ r.TarMD5) :
    r.Key ∈ (bucketResult rows r.Bucket).mismatched := by
  refine List.mem_map_of_mem (·.Key) (List.mem_filter.mpr ⟨hr, ?_⟩)
  simp [hmis]

/-- With pairwise-distinct `(Bucket, Key)` pairs, a mismatched record's key
never appears among its bucket's deletion-eligible keys. -/
theorem bucketResult_keys_not_mem (rows : List ManifestRecord) (r : ManifestRecord)
    (hnodup : rows.Pairwise fun a b => a.Bucket ≠ b.Bucket ∨ a.Key ≠ b.Key)
    (hr : r ∈ rows) (hmis : r.ETag ≠ r.TarMD5) :
    r.Key ∉ (bucketResult rows r.Bucket).keys := by
  intro hin
  obtain ⟨r', hr'f, hkey⟩ := List.mem_map.mp hin
  obtain ⟨hr'mem, hp⟩ := List.mem_filter.mp hr'f
  simp only [Bool.and_eq_true, decide_eq_true_eq] at hp
  obtain ⟨hbeq, hetag⟩ := hp
  have hne : r' ≠ r := by
    intro hEq
    rw [hEq] at hetag
    exact hmis hetag
  have hsym : Symmetric fun (a b : ManifestRecord) => a.Bucket ≠ b.Bucket ∨ a.Key ≠ b.Key :=
    fun a b h => h.imp Ne.symm Ne.symm
  have := hnodup.forall hsym hr'mem hr hne
  rcases this with hb | hk
  · exact hb hbeq
  · exact hk hkey

/-! ## Claim C5 (deletion gating and dry-run purity) -/

/-- C5: a record whose `ETag` differs from its `TarMD5` is reported as
mismatched for its bucket and its key is never among the deleted keys, in
dry-run and in live mode alike; and a dry run issues no store calls and
returns the partition with `deleted` and `errors` empty.  The hypotheses
are the manifest invariant (one record per object: pairwise distinct
bucket/key pairs) and the store contract that a batched delete only reports
keys it was asked to delete. -/
theorem delete_files_mismatch_gating
    (store : String → List String → List String × List String)
    (rows : List ManifestRecord)
    (hnodup : rows.Pairwise fun a b => a.Bucket ≠ b.Bucket ∨ a.Key ≠ b.Key)
    (hstore : ∀ b batch k, k ∈ (store b batch).1 → k ∈ batch) :
    (∀ (dry : Bool) (r : ManifestRecord), r ∈ rows → r.ETag ≠ r.TarMD5 →
      ∃ res, (r.Bucket, res) ∈ (delete_files store rows dry).1 ∧
        r.Key ∈ res.mismatched ∧ r.Key ∉ res.deleted) ∧
    (delete_files store rows true).2 = [] ∧
    (delete_files store rows true).1 = partitionManifest rows := by
  refine ⟨?_, rfl, rfl⟩
  intro dry r hr hmis
  have hpart := partitionManifest_mem rows r hr
  have hmm := bucketResult_mismatched_mem rows r hr hmis
  have hkn := bucketResult_keys_not_mem rows r hnodup hr hmis
  cases dry with
  | true =>
    refine ⟨bucketResult rows r.Bucket, ?_, hmm, ?_⟩
    · simpa [delete_files] using hpart
    · simp [bucketResult]
  | false =>
    refine ⟨{ bucketResult rows r.Bucket with
        deleted := ((chunks 1000 (bucketResult rows r.Bucket).keys).map
          (fun batch => (store r.Bucket batch).1)).flatten
        errors := ((chunks 1000 (bucketResult rows r.Bucket).keys).map
          (fun batch => (store r.Bucket batch).2)).flatten }, ?_, hmm, ?_⟩
    · simp only [delete_files, Bool.false_eq_true, if_false]
      exact List.mem_map_of_mem _ hpart
    · intro hin
      simp only [List.mem_flatten, List.mem_map] at hin
      obtain ⟨L, ⟨batch, hbatch, hL⟩, hkL⟩ := hin
      rw [← hL] at hkL
      have hkb : r.Key ∈ batch := hstore r.Bucket batch r.Key hkL
      have hkkeys : r.Key ∈ (bucketResult rows r.Bucket).keys := by
        rw [← (chunks_spec 1000 (by omega) (bucketResult rows r.Bucket).keys).1]
        exact List.mem_flatten.mpr ⟨batch, hbatch, hkb⟩
      exact hkn hkkeys

/-- Witness for C5 at a concrete two-row manifest: the mismatched record
`recMis` is reported and never deleted, in live mode. -/
theorem delete_files_mismatch_gating_witness :
    ∃ res, (recMis.Bucket, res) ∈ (delete_files storeOk [recDel, recMis] false).1 ∧
      recMis.Key ∈ res.mismatched ∧ recMis.Key ∉ res.deleted :=
  (delete_files_mismatch_gating storeOk [recDel, recMis]
    (by simp [recDel, recMis])
    (fun _ _ _ h => h)).1 false recMis (by decide) (by decide)

/-! ## Claim C9 (batched deletion) -/

/-- C9: in live mode every bucket's eligible keys are deleted in batches of
at most 1000 keys; the concatenation of the batches is exactly the eligible
key list; the per-bucket result handed back collects the concatenation of
the per-batch deleted and error responses; and more than 1000 eligible keys
force at least two batched calls. -/
theorem delete_files_batching
    (store : String → List String → List String × List String)
    (rows : List ManifestRecord) :
    ∀ p ∈ partitionManifest rows,
      (∀ c ∈ chunks 1000 p.2.keys, c.length ≤ 1000) ∧
      (chunks 1000 p.2.keys).flatten = p.2.keys ∧
      ((p.1, { p.2 with
          deleted := ((chunks 1000 p.2.keys).map (fun batch => (store p.1 batch).1)).flatten
          errors := ((chunks 1000 p.2.keys).map (fun batch => (store p.1 batch).2)).flatten })
        ∈ (delete_files store rows false).1) ∧
      (1000 < p.2.keys.length → 2 ≤ (chunks 1000 p.2.keys).length) := by
  intro p hp
  obtain ⟨h1, h2, h3⟩ := chunks_spec 1000 (by omega) p.2.keys
  refine ⟨h2, h1, ?_, h3⟩
  simp only [delete_files, Bool.false_eq_true, if_false]
  exact List.mem_map_of_mem _ hp

/-- Witness for C9 at a concrete manifest: the live per-bucket result for
bucket `bk` is exactly the flattened per-batch store responses. -/
theorem delete_files_batching_witness :
    ("bk", { bucketResult [recDel, recMis] "bk" with
        deleted := ((chunks 1000 (bucketResult [recDel, recMis] "bk").keys).map
          (fun batch => (storeOk "bk" batch).1)).flatten
        errors := ((chunks 1000 (bucketResult [recDel, recMis] "bk").keys).map
          (fun batch => (storeOk "bk" batch).2)).flatten })
      ∈ (delete_files storeOk [recDel, recMis] false).1 :=
  (delete_files_batching storeOk [recDel, recMis]
    ("bk", bucketResult [recDel, recMis] "bk") (by decide)).2.2.1

/-! ## Claim C10 (default mode is dry run) -/

/-- C10: calling `delete_files` without an explicit mode runs a dry run: it
returns the per-bucket partition of keys into eligible and mismatched,
issues no store calls (the call log is empty), and every bucket's `deleted`
and `errors` lists are empty. -/
theorem delete_files_default_dry
    (store : String → List String → List String × List String)
    (rows : List ManifestRecord) :
    delete_files_default store rows = (partitionManifest rows, []) ∧
    ∀ p ∈ partitionManifest rows, p.2.deleted = [] ∧ p.2.errors = [] := by
  refine ⟨rfl, ?_⟩
  intro p hp
  obtain ⟨b, _, rfl⟩ := List.mem_map.mp hp
  exact ⟨rfl, rfl⟩

/-- Witness for C10 at a concrete manifest. -/
theorem delete_files_default_dry_witness :
    delete_files_default storeOk [recDel, recMis] = (partitionManifest [recDel, recMis], []) ∧
    (bucketResult [recDel, recMis] "bk").deleted = [] ∧
    (bucketResult [recDel, recMis] "bk").errors = [] :=
  ⟨(delete_files_default_dry storeOk [recDel, recMis]).1,
    (delete_files_default_dry storeOk [recDel, recMis]).2
      ("bk", bucketResult [recDel, recMis] "bk") (by decide)⟩

/-! ## Claim C8 (single-entry extraction window) -/

/-- C8: `open_archived_file` raises its not-found error exactly when no
manifest record matches the requested bucket and key, and otherwise yields
the archive windowed to the record: an `OffsetSizeFile` seeked to
`TarDataOffset` with window length `TarSize` and read position 0.  Reads of
the window (from any reachable state): the returned bytes never exceed the
remaining window, a sized read never exceeds the requested size, a read on
an exhausted window returns no bytes, and every read returns a prefix of
the underlying stream starting at `offset + pos` of length at most the
remaining window, advancing `pos` by the bytes actually obtained. -/
theorem open_archived_file_window_spec (rows : List ManifestRecord) (tarBytes : Bytes)
    (bucket key : String) :
    (findEntry rows bucket key = none →
      open_archived_file rows tarBytes bucket key = .error .fileNotFound) ∧
    (∀ e, findEntry rows bucket key = some e →
      open_archived_file rows tarBytes bucket key =
        .ok (OffsetSizeFile.init tarBytes e.TarDataOffset e.TarSize)) ∧
    (open_archived_file rows tarBytes bucket key = .error .fileNotFound →
      findEntry rows bucket key = none) ∧
    (∀ (f : OffsetSizeFile) (sz : Option Nat),
      (f.read sz).1.length ≤ f.size - f.pos ∧
      (∀ s, sz = some s → (f.read sz).1.length ≤ s) ∧
      (f.size ≤ f.pos → (f.read sz).1 = []) ∧
      (∃ n, n ≤ f.size - f.pos ∧
        (f.read sz).1 = (f.source.drop (f.offset + f.pos)).take n ∧
        (f.read sz).2 = { f with pos := f.pos + (f.read sz).1.length })) := by
  refine ⟨?_, ?_, ?_, ?_⟩
  · intro h
    simp [open_archived_file, h]
  · intro e h
    simp [open_archived_file, h]
  · intro h
    cases hf : findEntry rows bucket key with
    | none => rfl
    | some e =>
      rw [show open_archived_file rows tarBytes bucket key =
        .ok (OffsetSizeFile.init tarBytes e.TarDataOffset e.TarSize) by
          simp [open_archived_file, hf]] at h
      cases h
  · intro f sz
    cases sz with
    | none =>
      refine ⟨?_, ?_, ?_, f.size - f.pos, Nat.le_refl _, rfl, rfl⟩
      · simp only [OffsetSizeFile.read, List.length_take]
        omega
      · intro s hs
        cases hs
      · intro hex
        simp only [OffsetSizeFile.read]
        rw [show f.size - f.pos = 0 by omega]
        exact List.take_zero _
    | some s =>
      refine ⟨?_, ?_, ?_, min s (f.size - f.pos), Nat.min_le_right _ _, rfl, rfl⟩
      · simp only [OffsetSizeFile.read, List.length_take]
        omega
      · intro s' hs'
        cases hs'
        simp only [OffsetSizeFile.read, List.length_take]
        omega
      · intro hex
        simp only [OffsetSizeFile.read]
        rw [show min s (f.size - f.pos) = 0 by omega]
        exact List.take_zero _

/-- Witness for C8: looking up `recDel`'s bucket and key yields its window,
and a two-byte read of the doctest window `OffsetSizeFile(source, 2, 4)`
over bytes 1..8 returns bytes 3 and 4. -/
theorem open_archived_file_window_spec_witness :
    open_archived_file [recDel] [1, 2, 3, 4, 5, 6, 7, 8] "bk" "k1" =
      .ok (OffsetSizeFile.init [1, 2, 3, 4, 5, 6, 7, 8] recDel.TarDataOffset recDel.TarSize) ∧
    ((OffsetSizeFile.init [1, 2, 3, 4, 5, 6, 7, 8] 2 4).read (some 2)).1 = [3, 4] :=
  ⟨(open_archived_file_window_spec [recDel] [1, 2, 3, 4, 5, 6, 7, 8] "bk" "k1").2.1 recDel
    (by decide), by decide⟩

end S3Mothball
